import Mathlib

/-!
Shallow embedding of `checkm/prodigal.py`: the `ProdigalFastaParser` and
`ProdigalGeneFeatureParser` classes (FASTA-header position extraction, GFF-like
feature parsing, coding-base mask construction and range queries).

Python strings are modelled as Lean `String`; files are lists of lines (each
line including its trailing newline, as produced by iterating an open Python
file); the file system is a partial map from path to lines.  Python `dict`s are
modelled as association lists with in-place overwrite on repeated keys, which
preserves Python's insertion-order iteration semantics.  numpy 0/1 float masks
are modelled as `List Nat` with entries 0 and 1; numpy basic slicing (with its
clipping of out-of-range bounds) is modelled explicitly by `sliceBound`.
-/

/-- A file system: maps a path to the list of lines of the file, if present. -/
abbrev FileSys := String → Option (List String)

/-- Errors of the parsing pipeline, per the spec's taxonomy. -/
inductive CheckMError where
  | missingInputFile
  | malformedLine
  deriving DecidableEq

/-- Python `line[0] == c` guarded against the empty string (file lines are
never empty since they include the newline). -/
def firstCharIs (s : String) (c : Char) : Bool :=
  match s.data with
  | [] => false
  | d :: _ => d == c

/-- Python `line[1:]`. -/
def strTail (s : String) : String :=
  String.mk (s.data.drop 1)

/-- Worker for `splitTab`, structural recursion over the characters. -/
def splitTabAux : List Char → List Char → List String
  | [], acc => [String.mk acc.reverse]
  | c :: cs, acc =>
    if c = '\t' then String.mk acc.reverse :: splitTabAux cs []
    else splitTabAux cs (c :: acc)

/-- Python `line.split('\t')`: splits on each tab, keeping empty fields. -/
def splitTab (s : String) : List String :=
  splitTabAux s.data []

/-- Worker for `pySplit`, structural recursion over the characters. -/
def pySplitAux : List Char → List Char → List String
  | [], acc => if acc.isEmpty then [] else [String.mk acc.reverse]
  | c :: cs, acc =>
    if c.isWhitespace then
      if acc.isEmpty then pySplitAux cs []
      else String.mk acc.reverse :: pySplitAux cs []
    else pySplitAux cs (c :: acc)

/-- Python `line.split()`: splits on runs of whitespace, dropping empty
tokens. -/
def pySplit (s : String) : List String :=
  pySplitAux s.data []

/-- Reads a nonempty all-digit character list as a natural number. -/
def readDigitsAux : List Char → Nat → Option Nat
  | [], acc => some acc
  | c :: cs, acc =>
    if '0' ≤ c ∧ c ≤ '9' then readDigitsAux cs (acc * 10 + (c.toNat - 48))
    else none

/-- Digit-string value, failing on the empty list or any non-digit. -/
def readDigits (cs : List Char) : Option Nat :=
  match cs with
  | [] => none
  | _ => readDigitsAux cs 0

/-- Strips leading and trailing whitespace, as Python `int` does. -/
def trimChars (cs : List Char) : List Char :=
  ((cs.dropWhile Char.isWhitespace).reverse.dropWhile Char.isWhitespace).reverse

/-- Python `int(s)`: optional sign, decimal digits, surrounding whitespace
allowed; `none` models the `ValueError` raised on anything else. -/
def pyInt (s : String) : Option Int :=
  match trimChars s.data with
  | '-' :: rest => (readDigits rest).map (fun n => -(n : Int))
  | '+' :: rest => (readDigits rest).map (fun n => (n : Int))
  | cs => (readDigits cs).map (fun n => (n : Int))

/-- Python `d[k]` as an option (also models the `in` test via `isSome`). -/
def dictGet {α : Type} : List (String × α) → String → Option α
  | [], _ => none
  | p :: d, k => if p.1 = k then some p.2 else dictGet d k

/-- Python `d[k] = v`: overwrites in place when the key is present (keeping its
insertion position), otherwise appends — exactly Python dict semantics. -/
def dictInsert {α : Type} : List (String × α) → String → α → List (String × α)
  | [], k, v => [(k, v)]
  | p :: d, k, v => if p.1 = k then (k, v) :: d else p :: dictInsert d k v

/-- Normalisation of a Python / numpy slice bound for a sequence of length
`len`: negative bounds count from the end, and everything is clipped to
`[0, len]`. -/
def sliceBound (len : Nat) (b : Int) : Nat :=
  (min (max (if b < 0 then b + len else b) 0) (len : Int)).toNat

/-- Worker for `setOnes`: writes 1 at the indices in `[lo, hi)`, counting the
head of the list as index `j`. -/
def setOnesFrom : List Nat → Nat → Nat → Nat → List Nat
  | [], _, _, _ => []
  | v :: m, j, lo, hi => (if lo ≤ j ∧ j < hi then 1 else v) :: setOnesFrom m (j + 1) lo hi

/-- numpy slice assignment `mask[a:b] = 1` with Python slice clipping. -/
def setOnes (mask : List Nat) (a b : Int) : List Nat :=
  setOnesFrom mask 0 (sliceBound mask.length a) (sliceBound mask.length b)

/-- State built by `ProdigalGeneFeatureParser.__parseGFF`: the `self.genes`
and `self.lastCodingBase` dictionaries plus the function-local `geneCounter`,
which in the Python source is a single variable shared across loop
iterations. -/
structure GFFState where
  genes : List (String × List (String × Int × Int))
  lastCodingBase : List (String × Int)
  geneCounter : Nat

/-- The `if seqId not in self.genes:` initialisation block of `__parseGFF`:
creates the per-sequence dictionaries and resets the gene counter. -/
def ensureSeq (st : GFFState) (seqId : String) : GFFState :=
  if (dictGet st.genes seqId).isSome then st
  else { genes := dictInsert st.genes seqId [],
         lastCodingBase := dictInsert st.lastCodingBase seqId 0,
         geneCounter := 0 }

/-- One iteration of the `__parseGFF` loop: skip comment lines, split on tabs,
record the gene interval under the composite identifier and update the last
coding base; `none` models an uncaught `IndexError` / `ValueError` on a
malformed line, which aborts the whole parse. -/
def parseGFFLine (st : GFFState) (line : String) : Option GFFState :=
  if firstCharIs line '#' then some st
  else
    match ((splitTab line)[3]?).bind pyInt, ((splitTab line)[4]?).bind pyInt with
    | some startPos, some stopPos =>
      let seqId := (splitTab line).headD ""
      let st1 := ensureSeq st seqId
      let geneId := seqId ++ "_" ++ toString st1.geneCounter
      some { genes := dictInsert st1.genes seqId
               (dictInsert ((dictGet st1.genes seqId).getD []) geneId (startPos, stopPos)),
             lastCodingBase := dictInsert st1.lastCodingBase seqId
               (max ((dictGet st1.lastCodingBase seqId).getD 0) stopPos),
             geneCounter := st1.geneCounter + 1 }
    | _, _ => none

/-- `ProdigalGeneFeatureParser.__parseGFF` over the lines of the file. -/
def parseGFF (lines : List String) : Option GFFState :=
  lines.foldlM parseGFFLine { genes := [], lastCodingBase := [], geneCounter := 0 }

/-- `ProdigalGeneFeatureParser.__buildCodingBaseMask`: allocate
`np.zeros(self.lastCodingBase[seqId])` and set `mask[start:end+1] = 1` for each
recorded gene interval of the sequence, in dictionary (= insertion) order. -/
def buildCodingBaseMask (genes : List (String × List (String × Int × Int)))
    (lastCodingBase : List (String × Int)) (seqId : String) : List Nat :=
  ((dictGet genes seqId).getD []).foldl
    (fun mask kv => setOnes mask kv.2.1 (kv.2.2 + 1))
    (List.replicate ((dictGet lastCodingBase seqId).getD 0).toNat 0)

/-- The state of a fully constructed `ProdigalGeneFeatureParser`. -/
structure ProdigalGeneFeatureParser where
  genes : List (String × List (String × Int × Int))
  lastCodingBase : List (String × Int)
  codingBaseMasks : List (String × List Nat)

/-- Modelled from the spec: `checkFileExists` is imported from the `common`
module, which is not among the sources; per the spec both parsers "fail with a
FileNotFound-class error if the input file does not exist prior to parsing"
(`MissingInputFile`), before any line is read. -/
def checkFileExists (fs : FileSys) (filename : String) : Except CheckMError (List String) :=
  match fs filename with
  | none => .error .missingInputFile
  | some lines => .ok lines

/-- `ProdigalGeneFeatureParser.__init__`: check the file exists, parse the GFF
feature table, then eagerly build and cache one coding-base mask per sequence
identifier in `self.genes`. -/
def ProdigalGeneFeatureParser.init (fs : FileSys) (filename : String) :
    Except CheckMError ProdigalGeneFeatureParser :=
  match checkFileExists fs filename with
  | .error e => .error e
  | .ok lines =>
    match parseGFF lines with
    | none => .error .malformedLine
    | some st =>
      .ok { genes := st.genes,
            lastCodingBase := st.lastCodingBase,
            codingBaseMasks :=
              st.genes.map (fun kv => (kv.1, buildCodingBaseMask st.genes st.lastCodingBase kv.1)) }

/-- `ProdigalGeneFeatureParser.codingBases`: 0 for a sequence with no recorded
genes; `end` defaults to the sequence's last coding base; otherwise the numpy
sum of `mask[start:end]`, with Python slice clipping. -/
def ProdigalGeneFeatureParser.codingBases (p : ProdigalGeneFeatureParser) (seqId : String)
    (start : Int) (stop : Option Int) : Nat :=
  match dictGet p.genes seqId with
  | none => 0
  | some _ =>
    let stopVal : Int :=
      match stop with
      | none => (dictGet p.lastCodingBase seqId).getD 0
      | some e => e
    let mask := (dictGet p.codingBaseMasks seqId).getD []
    ((mask.drop (sliceBound mask.length start)).take
      (sliceBound mask.length stopVal - sliceBound mask.length start)).sum

/-- One iteration of the `ProdigalFastaParser.genePositions` loop: on a header
line, whitespace-tokenize the text after `>` and record tokens 0, 2 and 4 as
gene identifier, start and end; `none` models an uncaught `IndexError` /
`ValueError` on a malformed header. -/
def genePositionsLine (gp : List (String × Int × Int)) (line : String) :
    Option (List (String × Int × Int)) :=
  if firstCharIs line '>' then
    match (pySplit (strTail line))[0]?, ((pySplit (strTail line))[2]?).bind pyInt,
        ((pySplit (strTail line))[4]?).bind pyInt with
    | some geneId, some startPos, some endPos => some (dictInsert gp geneId (startPos, endPos))
    | _, _, _ => none
  else some gp

/-- The body of `ProdigalFastaParser.genePositions` over the lines of the
file. -/
def genePositionsLines (lines : List String) : Option (List (String × Int × Int)) :=
  lines.foldlM genePositionsLine []

/-- `ProdigalFastaParser.genePositions`: check the file exists, then build the
gene-position dictionary from the FASTA header lines. -/
def ProdigalFastaParser.genePositions (fs : FileSys) (filename : String) :
    Except CheckMError (List (String × Int × Int)) :=
  match checkFileExists fs filename with
  | .error e => .error e
  | .ok lines =>
    match genePositionsLines lines with
    | none => .error .malformedLine
    | some gp => .ok gp

/-- Total accessor for a constructed parser, used to state closed witnesses. -/
def getParser (fs : FileSys) (filename : String) : ProdigalGeneFeatureParser :=
  match ProdigalGeneFeatureParser.init fs filename with
  | .ok p => p
  | .error _ => { genes := [], lastCodingBase := [], codingBaseMasks := [] }

/-! ### Concrete feature files used by the test-style claims -/

/-- Path of the feature file in the modelled file system. -/
def gffName : String := "genes.gff"

/-- Feature file with interleaved sequence identifiers A, A, B, A. -/
def gffLinesInterleaved : List String :=
  ["A\t.\t.\t2\t5\t.\n", "A\t.\t.\t10\t50\t.\n", "B\t.\t.\t1\t3\t.\n", "A\t.\t.\t30\t35\t.\n"]

/-- File system holding the interleaved feature file. -/
def fsInterleaved : FileSys := fun p => if p = gffName then some gffLinesInterleaved else none

/-- Feature file giving one sequence the two overlapping intervals [2,5] and
[4,8]. -/
def gffLinesOverlap : List String :=
  ["A\t.\t.\t2\t5\t.\n", "A\t.\t.\t4\t8\t.\n"]

/-- File system holding the overlapping-interval feature file. -/
def fsOverlap : FileSys := fun p => if p = gffName then some gffLinesOverlap else none

/-- Feature file giving one sequence the disjoint intervals [0,2] and [5,7]. -/
def gffLinesDisjoint : List String :=
  ["A\t.\t.\t0\t2\t.\n", "A\t.\t.\t5\t7\t.\n"]

/-- File system holding the disjoint-interval feature file. -/
def fsDisjoint : FileSys := fun p => if p = gffName then some gffLinesDisjoint else none

/-! ### Association-list (Python dict) lemmas -/

theorem dictGet_dictInsert_self {α : Type} (d : List (String × α)) (k : String) (v : α) :
    dictGet (dictInsert d k v) k = some v := by
  induction d with
  | nil => simp [dictInsert, dictGet]
  | cons p d ih =>
    by_cases h : p.1 = k
    · simp [dictInsert, dictGet, h]
    · simp [dictInsert, dictGet, h, ih]

theorem dictGet_dictInsert_ne {α : Type} (d : List (String × α)) (k k' : String) (v : α)
    (h : k' ≠ k) : dictGet (dictInsert d k v) k' = dictGet d k' := by
  induction d with
  | nil => simp [dictInsert, dictGet, Ne.symm h]
  | cons p d ih =>
    by_cases hp : p.1 = k
    · have hkk' : ¬ k = k' := Ne.symm h
      have hpk' : ¬ p.1 = k' := fun he => hkk' (hp.symm.trans he)
      simp [dictInsert, dictGet, hp, hkk', hpk']
    · simp [dictInsert, dictGet, hp, ih]

theorem dictGet_map_keyFun {α β : Type} (d : List (String × α)) (f : String → β) (k : String)
    (g : α) (h : dictGet d k = some g) :
    dictGet (d.map (fun kv => (kv.1, f kv.1))) k = some (f k) := by
  induction d with
  | nil => simp [dictGet] at h
  | cons p d ih =>
    by_cases hp : p.1 = k
    · simp [dictGet, hp]
    · simp only [dictGet, hp, if_false, List.map_cons, if_neg hp] at h ⊢
      exact ih h

/-! ### Option-monad fold lemmas -/

theorem foldlM_option_append {α σ : Type} (f : σ → α → Option σ) (l₁ l₂ : List α) (s : σ) :
    (l₁ ++ l₂).foldlM f s = (l₁.foldlM f s).bind (fun s' => l₂.foldlM f s') := by
  induction l₁ generalizing s with
  | nil => simp [List.foldlM]
  | cons a l₁ ih =>
    simp only [List.cons_append, List.foldlM_cons]
    cases f s a with
    | none => simp
    | some s' => simp [ih]

/-! ### Mask construction lemmas -/

theorem length_setOnesFrom (m : List Nat) (j lo hi : Nat) :
    (setOnesFrom m j lo hi).length = m.length := by
  induction m generalizing j with
  | nil => rfl
  | cons v m ih => simp [setOnesFrom, ih]

theorem length_setOnes (m : List Nat) (a b : Int) : (setOnes m a b).length = m.length :=
  length_setOnesFrom ..

theorem getD_setOnesFrom (m : List Nat) (j lo hi i : Nat) (h : i < m.length) :
    (setOnesFrom m j lo hi).getD i 0 =
      if lo ≤ j + i ∧ j + i < hi then 1 else m.getD i 0 := by
  induction m generalizing j i with
  | nil => simp at h
  | cons v m ih =>
    cases i with
    | zero => simp [setOnesFrom]
    | succ i =>
      simp only [setOnesFrom, List.getD_cons_succ]
      rw [ih (j + 1) i (by simpa using h)]
      have hj : j + 1 + i = j + (i + 1) := by omega
      rw [hj]

theorem getD_setOnes (m : List Nat) (a b : Int) (i : Nat) (h : i < m.length) :
    (setOnes m a b).getD i 0 =
      if sliceBound m.length a ≤ i ∧ i < sliceBound m.length b then 1 else m.getD i 0 := by
  unfold setOnes
  rw [getD_setOnesFrom _ _ _ _ _ h]
  simp

theorem mem_setOnesFrom (m : List Nat) (j lo hi : Nat) (hm : ∀ x ∈ m, x = 0 ∨ x = 1) :
    ∀ x ∈ setOnesFrom m j lo hi, x = 0 ∨ x = 1 := by
  induction m generalizing j with
  | nil => simp [setOnesFrom]
  | cons v m ih =>
    intro x hx
    simp only [setOnesFrom, List.mem_cons] at hx
    rcases hx with hx | hx
    · subst hx
      by_cases hc : lo ≤ j ∧ j < hi
      · rw [if_pos hc]; exact Or.inr rfl
      · rw [if_neg hc]; exact hm v (List.mem_cons_self ..)
    · exact ih (j + 1) (fun y hy => hm y (List.mem_cons_of_mem _ hy)) x hx

theorem mem_setOnes (m : List Nat) (a b : Int) (hm : ∀ x ∈ m, x = 0 ∨ x = 1) :
    ∀ x ∈ setOnes m a b, x = 0 ∨ x = 1 := by
  unfold setOnes
  exact mem_setOnesFrom _ _ _ _ hm

theorem length_foldl_setOnes (g : List (String × Int × Int)) (m : List Nat) :
    (g.foldl (fun mask kv => setOnes mask kv.2.1 (kv.2.2 + 1)) m).length = m.length := by
  induction g generalizing m with
  | nil => rfl
  | cons kv g ih => rw [List.foldl_cons, ih, length_setOnes]

theorem mem_foldl_setOnes (g : List (String × Int × Int)) (m : List Nat)
    (hm : ∀ x ∈ m, x = 0 ∨ x = 1) :
    ∀ x ∈ g.foldl (fun mask kv => setOnes mask kv.2.1 (kv.2.2 + 1)) m, x = 0 ∨ x = 1 := by
  induction g generalizing m with
  | nil => exact hm
  | cons kv g ih =>
    rw [List.foldl_cons]
    exact ih _ (mem_setOnes _ _ _ hm)

theorem getD_foldl_setOnes (g : List (String × Int × Int)) (m : List Nat) (i : Nat)
    (h : i < m.length) :
    ((g.foldl (fun mask kv => setOnes mask kv.2.1 (kv.2.2 + 1)) m).getD i 0 = 1 ↔
      (m.getD i 0 = 1 ∨ ∃ kv ∈ g,
        sliceBound m.length kv.2.1 ≤ i ∧ i < sliceBound m.length (kv.2.2 + 1))) := by
  induction g generalizing m with
  | nil => simp
  | cons kv g ih =>
    rw [List.foldl_cons]
    have hlen : (setOnes m kv.2.1 (kv.2.2 + 1)).length = m.length := length_setOnes ..
    rw [ih (setOnes m kv.2.1 (kv.2.2 + 1)) (by rw [hlen]; exact h)]
    rw [hlen, getD_setOnes _ _ _ _ h]
    by_cases hC : sliceBound m.length kv.2.1 ≤ i ∧ i < sliceBound m.length (kv.2.2 + 1)
    · rw [if_pos hC]
      constructor
      · intro _
        exact Or.inr ⟨kv, List.mem_cons_self .., hC⟩
      · intro _
        exact Or.inl rfl
    · rw [if_neg hC]
      simp only [List.mem_cons]
      constructor
      · rintro (hm1 | ⟨kv', hkv', hc'⟩)
        · exact Or.inl hm1
        · exact Or.inr ⟨kv', Or.inr hkv', hc'⟩
      · rintro (hm1 | ⟨kv', hkv' | hkv', hc'⟩)
        · exact Or.inl hm1
        · subst hkv'
          exact absurd hc' hC
        · exact Or.inr ⟨kv', hkv', hc'⟩

theorem getD_replicate_zero (n i : Nat) : (List.replicate n 0).getD i 0 = 0 := by
  induction n generalizing i with
  | zero => rfl
  | succ n ih =>
    cases i with
    | zero => rfl
    | succ i =>
      rw [List.replicate_succ, List.getD_cons_succ]
      exact ih i

theorem sum_eq_count_one (l : List Nat) (h : ∀ x ∈ l, x = 0 ∨ x = 1) :
    l.sum = l.count 1 := by
  induction l with
  | nil => rfl
  | cons x l ih =>
    have ihl := ih (fun y hy => h y (List.mem_cons_of_mem _ hy))
    rcases h x (List.mem_cons_self ..) with hx | hx
    · subst hx
      simp [List.sum_cons, List.count_cons, ihl]
    · subst hx
      simp [List.sum_cons, List.count_cons, ihl]
      omega

theorem sliceBound_cover (n : Nat) (s e : Int) (hs : 0 ≤ s) (he : 0 ≤ e) (i : Nat)
    (hi : i < n) :
    (sliceBound n s ≤ i ∧ i < sliceBound n (e + 1)) ↔ (s ≤ (i : Int) ∧ (i : Int) ≤ e) := by
  simp only [sliceBound]
  split_ifs <;> omega

theorem sliceBound_zero (n : Nat) : sliceBound n 0 = 0 := by
  simp only [sliceBound]
  split_ifs <;> omega

theorem sliceBound_full (n : Nat) (b : Int) (hb : b.toNat = n) : sliceBound n b = n := by
  simp only [sliceBound]
  split_ifs <;> omega

/-! ### Inversion of the constructor and shared mask specification -/

theorem init_inv (fs : FileSys) (fn : String) (p : ProdigalGeneFeatureParser)
    (hp : ProdigalGeneFeatureParser.init fs fn = .ok p) :
    ∃ lines st, fs fn = some lines ∧ parseGFF lines = some st ∧
      p.genes = st.genes ∧ p.lastCodingBase = st.lastCodingBase ∧
      p.codingBaseMasks =
        st.genes.map (fun kv => (kv.1, buildCodingBaseMask st.genes st.lastCodingBase kv.1)) := by
  cases hfs : fs fn with
  | none =>
    simp only [ProdigalGeneFeatureParser.init, checkFileExists, hfs] at hp
    exact absurd hp (by simp)
  | some lines =>
    simp only [ProdigalGeneFeatureParser.init, checkFileExists, hfs] at hp
    cases hparse : parseGFF lines with
    | none =>
      simp only [hparse] at hp
      exact absurd hp (by simp)
    | some st =>
      simp only [hparse, Except.ok.injEq] at hp
      subst hp
      exact ⟨lines, st, rfl, hparse, rfl, rfl, rfl⟩

theorem init_mask_spec (fs : FileSys) (fn : String) (p : ProdigalGeneFeatureParser)
    (hp : ProdigalGeneFeatureParser.init fs fn = .ok p)
    (seqId : String) (g : List (String × Int × Int)) (hg : dictGet p.genes seqId = some g) :
    ∃ mask, dictGet p.codingBaseMasks seqId = some mask ∧
      mask.length = ((dictGet p.lastCodingBase seqId).getD 0).toNat ∧
      (∀ x ∈ mask, x = 0 ∨ x = 1) ∧
      ∀ pos : Nat, pos < mask.length →
        (mask.getD pos 0 = 1 ↔ ∃ kv ∈ g,
          sliceBound mask.length kv.2.1 ≤ pos ∧ pos < sliceBound mask.length (kv.2.2 + 1)) := by
  obtain ⟨lines, st, hfs, hparse, hpg, hplcb, hpm⟩ := init_inv fs fn p hp
  rw [hpg] at hg
  have hbuild : buildCodingBaseMask st.genes st.lastCodingBase seqId =
      g.foldl (fun mask kv => setOnes mask kv.2.1 (kv.2.2 + 1))
        (List.replicate ((dictGet st.lastCodingBase seqId).getD 0).toNat 0) := by
    unfold buildCodingBaseMask
    rw [hg]
    exact rfl
  have hlen : (buildCodingBaseMask st.genes st.lastCodingBase seqId).length =
      ((dictGet st.lastCodingBase seqId).getD 0).toNat := by
    rw [hbuild, length_foldl_setOnes, List.length_replicate]
  refine ⟨buildCodingBaseMask st.genes st.lastCodingBase seqId, ?_, ?_, ?_, ?_⟩
  · rw [hpm]
    exact dictGet_map_keyFun st.genes
      (fun s => buildCodingBaseMask st.genes st.lastCodingBase s) seqId g hg
  · rw [hplcb]
    exact hlen
  · rw [hbuild]
    exact mem_foldl_setOnes _ _ (fun x hx => Or.inl (List.eq_of_mem_replicate hx))
  · intro pos hpos
    rw [hlen] at hpos
    have hrep : pos < (List.replicate ((dictGet st.lastCodingBase seqId).getD 0).toNat
        (0 : Nat)).length := by
      rw [List.length_replicate]
      exact hpos
    rw [hlen]
    conv in (buildCodingBaseMask st.genes st.lastCodingBase seqId).getD pos 0 => rw [hbuild]
    rw [getD_foldl_setOnes g _ pos hrep, getD_replicate_zero]
    simp only [List.length_replicate]
    constructor
    · rintro (h01 | hex)
      · exact absurd h01 (by decide)
      · exact hex
    · intro hex
      exact Or.inr hex

/-! ### Keys of the parsed gene dictionary come from the feature file -/

theorem dictGet_ensureSeq_genes_ne (st : GFFState) (seqId k : String) (h : k ≠ seqId) :
    dictGet (ensureSeq st seqId).genes k = dictGet st.genes k := by
  unfold ensureSeq
  split
  · rfl
  · exact dictGet_dictInsert_ne _ _ _ _ h

theorem parseGFFLine_key (st0 : GFFState) (line : String) (st1 : GFFState)
    (hstep : parseGFFLine st0 line = some st1) (k : String)
    (hk : (dictGet st1.genes k).isSome) :
    (dictGet st0.genes k).isSome ∨
      (firstCharIs line '#' = false ∧ (splitTab line).headD "" = k) := by
  unfold parseGFFLine at hstep
  by_cases hcom : firstCharIs line '#' = true
  · rw [if_pos hcom] at hstep
    injection hstep with h
    subst h
    exact Or.inl hk
  · rw [Bool.not_eq_true] at hcom
    rw [if_neg (by rw [hcom]; exact Bool.false_ne_true)] at hstep
    cases h3 : ((splitTab line)[3]?).bind pyInt with
    | none =>
      rw [h3] at hstep
      cases h4 : ((splitTab line)[4]?).bind pyInt with
      | none => rw [h4] at hstep; exact absurd hstep (by simp)
      | some b => rw [h4] at hstep; exact absurd hstep (by simp)
    | some a =>
      rw [h3] at hstep
      cases h4 : ((splitTab line)[4]?).bind pyInt with
      | none => rw [h4] at hstep; exact absurd hstep (by simp)
      | some b =>
        rw [h4] at hstep
        by_cases hid : (splitTab line).headD "" = k
        · exact Or.inr ⟨hcom, hid⟩
        · left
          injection hstep with h1
          subst h1
          dsimp only at hk
          rw [dictGet_dictInsert_ne _ _ _ _ (fun he => hid he.symm),
            dictGet_ensureSeq_genes_ne st0 _ _ (fun he => hid he.symm)] at hk
          exact hk

theorem parseGFF_keys_sub (lines : List String) (st0 st : GFFState)
    (h : lines.foldlM parseGFFLine st0 = some st) (k : String)
    (hk : (dictGet st.genes k).isSome) :
    (dictGet st0.genes k).isSome ∨
      ∃ line ∈ lines, firstCharIs line '#' = false ∧ (splitTab line).headD "" = k := by
  induction lines generalizing st0 with
  | nil =>
    injection h with h
    subst h
    exact Or.inl hk
  | cons line rest ih =>
    rw [List.foldlM_cons] at h
    cases hstep : parseGFFLine st0 line with
    | none => rw [hstep] at h; exact absurd h (by simp)
    | some st1 =>
      rw [hstep] at h
      have h' : rest.foldlM parseGFFLine st1 = some st := h
      rcases ih st1 h' with h1 | ⟨l, hl, hcm, hid⟩
      · rcases parseGFFLine_key st0 line st1 hstep k h1 with h0 | hline
        · exact Or.inl h0
        · exact Or.inr ⟨line, List.mem_cons_self .., hline⟩
      · exact Or.inr ⟨l, List.mem_cons_of_mem _ hl, hcm, hid⟩

/-! ### Last-write-wins for the FASTA gene-position dictionary -/

theorem genePositions_preserve (post : List String) (gp0 gp : List (String × Int × Int))
    (geneId : String)
    (hpost : ∀ l ∈ post, firstCharIs l '>' = true → (pySplit (strTail l))[0]? ≠ some geneId)
    (h : post.foldlM genePositionsLine gp0 = some gp) :
    dictGet gp geneId = dictGet gp0 geneId := by
  induction post generalizing gp0 with
  | nil =>
    injection h with h
    subst h
    rfl
  | cons l rest ih =>
    rw [List.foldlM_cons] at h
    cases hstep : genePositionsLine gp0 l with
    | none => rw [hstep] at h; exact absurd h (by simp)
    | some gp1 =>
      rw [hstep] at h
      have h' : rest.foldlM genePositionsLine gp1 = some gp := h
      have hd : dictGet gp1 geneId = dictGet gp0 geneId := by
        unfold genePositionsLine at hstep
        by_cases hh : firstCharIs l '>' = true
        · rw [if_pos hh] at hstep
          cases h0 : (pySplit (strTail l))[0]? with
          | none =>
            rw [h0] at hstep
            cases h2 : ((pySplit (strTail l))[2]?).bind pyInt <;>
              cases h4 : ((pySplit (strTail l))[4]?).bind pyInt <;>
                rw [h2, h4] at hstep <;> exact absurd hstep (by simp)
          | some gid =>
            rw [h0] at hstep
            cases h2 : ((pySplit (strTail l))[2]?).bind pyInt with
            | none =>
              cases h4 : ((pySplit (strTail l))[4]?).bind pyInt <;>
                rw [h2, h4] at hstep <;> exact absurd hstep (by simp)
            | some sv =>
              rw [h2] at hstep
              cases h4 : ((pySplit (strTail l))[4]?).bind pyInt with
              | none => rw [h4] at hstep; exact absurd hstep (by simp)
              | some ev =>
                rw [h4] at hstep
                injection hstep with h1
                subst h1
                have hne : geneId ≠ gid := by
                  intro he
                  exact hpost l (List.mem_cons_self ..) hh (by rw [h0, he])
                exact dictGet_dictInsert_ne _ _ _ _ hne
        · rw [if_neg hh] at hstep
          injection hstep with h1
          subst h1
          rfl
      rw [ih gp1 (fun l' hl' => hpost l' (List.mem_cons_of_mem _ hl')) h', hd]

/-! ### Claims -/

/-- C2 counterexample: for the feature file giving sequence A the intervals
[2,5] and [4,8], `codingBases("A", 2, 9)` does not return 7 as the claim
states (the mask is allocated with length `lastCodingBase` = 8, so position 8
is clipped away and the sum is 6). -/
theorem c2_overlap_counterexample :
    (ProdigalGeneFeatureParser.init fsOverlap gffName).map
      (fun q => q.codingBases "A" 2 (some 9)) ≠ Except.ok 7 := by
  intro h
  rw [show (ProdigalGeneFeatureParser.init fsOverlap gffName).map
      (fun q => q.codingBases "A" 2 (some 9)) = Except.ok 6 from rfl] at h
  injection h with h'
  exact absurd h' (by decide)

/-- C2 (amended): for the feature file giving sequence A the intervals [2,5]
and [4,8], the cached mask has length 8 and marks positions 2..7 as covered
exactly once each (coverage union, no double counting); position 8 lies
outside the mask, and `codingBases("A", 2, 9)` — the sum over mask indices in
the clipped half-open range [2, 9) — returns 6. -/
theorem c2_overlap_amended :
    (ProdigalGeneFeatureParser.init fsOverlap gffName).map
      (fun q => (dictGet q.codingBaseMasks "A", q.codingBases "A" 2 (some 9)))
      = Except.ok (some [0, 0, 1, 1, 1, 1, 1, 1], 6) := rfl

/-- C3 counterexample: for the interleaved feature file with gene lines for
A, A, B, A, the composite identifiers recorded for sequence A are not
A_0, A_1, A_2 as the claim states. -/
theorem c3_interleaved_counterexample :
    (parseGFF gffLinesInterleaved).map
      (fun st => ((dictGet st.genes "A").getD []).map Prod.fst)
      ≠ some ["A_0", "A_1", "A_2"] := by
  intro h
  rw [show (parseGFF gffLinesInterleaved).map
      (fun st => ((dictGet st.genes "A").getD []).map Prod.fst)
      = some ["A_0", "A_1"] from rfl] at h
  injection h with h'
  exact absurd h' (by decide)

/-- C3 (amended): the gene counter is a single variable shared across
sequences, reset to 0 only when a line introduces a sequence identifier not
seen before and incremented on every gene line; for the interleaved feature
file A, A, B, A the composite identifiers produced are A_0, A_1, B_0 and then
A_1 again for the fourth line, whose interval overwrites the one stored under
A_1. -/
theorem c3_interleaved_amended :
    (parseGFF gffLinesInterleaved).map
      (fun st => (st.genes.map (fun kv => (kv.1, kv.2.map Prod.fst)), dictGet st.genes "A"))
      = some ([("A", ["A_0", "A_1"]), ("B", ["B_0"])],
          some [("A_0", (2, 5)), ("A_1", (30, 35))]) := rfl

/-- C4 counterexample: for the feature file giving sequence A the disjoint
intervals [0,2] and [5,7] (lastCodingBase = 7), `codingBases("A", 0, 8)` does
not return 6 as the claim states (the mask has length 7, so position 7 is
clipped away and the sum is 5). -/
theorem c4_disjoint_counterexample :
    (ProdigalGeneFeatureParser.init fsDisjoint gffName).map
      (fun q => q.codingBases "A" 0 (some 8)) ≠ Except.ok 6 := by
  intro h
  rw [show (ProdigalGeneFeatureParser.init fsDisjoint gffName).map
      (fun q => q.codingBases "A" 0 (some 8)) = Except.ok 5 from rfl] at h
  injection h with h'
  exact absurd h' (by decide)

/-- C4 (amended): for the feature file giving sequence A the disjoint
intervals [0,2] and [5,7], the cached mask is [1,1,1,0,0,1,1] (length 7 =
lastCodingBase, position 7 clipped away) and `codingBases("A", 0, 8)`
returns 5. -/
theorem c4_disjoint_amended :
    (ProdigalGeneFeatureParser.init fsDisjoint gffName).map
      (fun q => (dictGet q.codingBaseMasks "A", q.codingBases "A" 0 (some 8)))
      = Except.ok (some [1, 1, 1, 0, 0, 1, 1], 5) := rfl

/-- C9: for the interleaved feature file A [2,5], A [10,50], B [1,3],
A [30,35], the shared gene counter makes the second and fourth lines both
produce the composite identifier A_1, so A's gene dictionary holds only
A_0 = [2,5] and A_1 = [30,35] (the interval [10,50] was overwritten);
lastCodingBase("A") is still 50, the end of the overwritten interval; the
overwritten interval contributes nothing to the mask (positions 10 and 40
are 0) and the full-range codingBases("A") is 10 = |[2,5]| + |[30,35]|. -/
theorem c9_interleaved_overwrite :
    (ProdigalGeneFeatureParser.init fsInterleaved gffName).map
      (fun q => (dictGet q.genes "A", (dictGet q.lastCodingBase "A").getD 0,
        q.codingBases "A" 0 none,
        ((dictGet q.codingBaseMasks "A").getD []).getD 10 0,
        ((dictGet q.codingBaseMasks "A").getD []).getD 40 0))
      = Except.ok (some [("A_0", (2, 5)), ("A_1", (30, 35))], 50, 10, 0, 0) := rfl

/-- C8: calling `ProdigalFastaParser.genePositions`, or constructing
`ProdigalGeneFeatureParser`, on a path absent from the file system fails with
the MissingInputFile error before any line is parsed, and no parse state is
produced. -/
theorem c8_missing_file (fs : FileSys) (filename : String) (h : fs filename = none) :
    ProdigalFastaParser.genePositions fs filename = .error .missingInputFile ∧
    ProdigalGeneFeatureParser.init fs filename = .error .missingInputFile := by
  constructor <;>
    simp only [ProdigalFastaParser.genePositions, ProdigalGeneFeatureParser.init,
      checkFileExists, h]

/-- C8 witness: the behaviour on the everywhere-empty file system. -/
theorem c8_missing_file_witness :
    ProdigalFastaParser.genePositions (fun _ => none) "missing.gff"
      = .error .missingInputFile ∧
    ProdigalGeneFeatureParser.init (fun _ => none) "missing.gff"
      = .error .missingInputFile :=
  c8_missing_file (fun _ => none) "missing.gff" rfl

/-- C1 counterexample: for the feature file giving sequence A the intervals
[2,5] and [4,8], the cached mask has length 8 while lastCodingBase("A") = 8,
so the mask length is lastCodingBase, not lastCodingBase + 1 as the claim
states. -/
theorem c1_mask_length_counterexample :
    (ProdigalGeneFeatureParser.init fsOverlap gffName).map
      (fun q => (((dictGet q.codingBaseMasks "A").getD []).length,
        (dictGet q.lastCodingBase "A").getD 0))
      = Except.ok (8, 8) ∧ (8 : Nat) ≠ 8 + 1 :=
  ⟨rfl, by decide⟩

/-- C1 (amended): for every constructed ProdigalGeneFeatureParser and every
sequence identifier with recorded gene intervals whose coordinates are
nonnegative, the cached coding-base mask is a dense 0/1 array of length
lastCodingBase(seqId) — not lastCodingBase + 1 — with one entry per base
position p in [0, lastCodingBase - 1], and mask[p] = 1 if and only if some
parsed gene interval [start, end] of that sequence satisfies
start <= p <= end. -/
theorem c1_mask_invariant (fs : FileSys) (fn : String) (p : ProdigalGeneFeatureParser)
    (hp : ProdigalGeneFeatureParser.init fs fn = .ok p)
    (seqId : String) (g : List (String × Int × Int)) (hg : dictGet p.genes seqId = some g)
    (hnn : ∀ kv ∈ g, 0 ≤ kv.2.1 ∧ 0 ≤ kv.2.2) :
    ∃ mask, dictGet p.codingBaseMasks seqId = some mask ∧
      mask.length = ((dictGet p.lastCodingBase seqId).getD 0).toNat ∧
      (∀ x ∈ mask, x = 0 ∨ x = 1) ∧
      ∀ pos : Nat, pos < mask.length →
        (mask.getD pos 0 = 1 ↔
          ∃ kv ∈ g, kv.2.1 ≤ (pos : Int) ∧ (pos : Int) ≤ kv.2.2) := by
  obtain ⟨mask, hmask, hlen, hmem, hiff⟩ := init_mask_spec fs fn p hp seqId g hg
  refine ⟨mask, hmask, hlen, hmem, ?_⟩
  intro pos hpos
  rw [hiff pos hpos]
  constructor
  · rintro ⟨kv, hkv, hc⟩
    exact ⟨kv, hkv,
      (sliceBound_cover mask.length kv.2.1 kv.2.2 (hnn kv hkv).1 (hnn kv hkv).2 pos hpos).1 hc⟩
  · rintro ⟨kv, hkv, hc⟩
    exact ⟨kv, hkv,
      (sliceBound_cover mask.length kv.2.1 kv.2.2 (hnn kv hkv).1 (hnn kv hkv).2 pos hpos).2 hc⟩

/-- C1 witness: the amended invariant at the overlapping-interval feature
file, sequence A, intervals [2,5] and [4,8]. -/
theorem c1_mask_invariant_witness :
    ∃ mask, dictGet (getParser fsOverlap gffName).codingBaseMasks "A" = some mask ∧
      mask.length = ((dictGet (getParser fsOverlap gffName).lastCodingBase "A").getD 0).toNat ∧
      (∀ x ∈ mask, x = 0 ∨ x = 1) ∧
      ∀ pos : Nat, pos < mask.length →
        (mask.getD pos 0 = 1 ↔
          ∃ kv ∈ ([("A_0", ((2 : Int), (5 : Int))), ("A_1", (4, 8))] :
              List (String × Int × Int)),
            kv.2.1 ≤ (pos : Int) ∧ (pos : Int) ≤ kv.2.2) :=
  c1_mask_invariant fsOverlap gffName (getParser fsOverlap gffName) rfl "A"
    [("A_0", (2, 5)), ("A_1", (4, 8))] rfl (by decide)

/-- C5: for every constructed parser and every sequence identifier with
recorded gene intervals, `codingBases(seqId)` with start and end unspecified
uses end = lastCodingBase(seqId) and returns exactly the count of entries
equal to 1 in the full cached mask of that sequence. -/
theorem c5_default_range (fs : FileSys) (fn : String) (p : ProdigalGeneFeatureParser)
    (hp : ProdigalGeneFeatureParser.init fs fn = .ok p)
    (seqId : String) (g : List (String × Int × Int)) (hg : dictGet p.genes seqId = some g) :
    ∃ mask, dictGet p.codingBaseMasks seqId = some mask ∧
      p.codingBases seqId 0 none = mask.count 1 ∧
      p.codingBases seqId 0 none
        = p.codingBases seqId 0 (some ((dictGet p.lastCodingBase seqId).getD 0)) := by
  obtain ⟨mask, hmask, hlen, hmem, _⟩ := init_mask_spec fs fn p hp seqId g hg
  have hfull : sliceBound mask.length ((dictGet p.lastCodingBase seqId).getD 0)
      = mask.length := sliceBound_full _ _ hlen.symm
  have hcompute : p.codingBases seqId 0 none = mask.sum := by
    simp only [ProdigalGeneFeatureParser.codingBases, hg, hmask, Option.getD_some,
      sliceBound_zero, hfull, Nat.sub_zero, List.drop_zero, List.take_length]
  have hcompute2 : p.codingBases seqId 0 (some ((dictGet p.lastCodingBase seqId).getD 0))
      = mask.sum := by
    simp only [ProdigalGeneFeatureParser.codingBases, hg, hmask, Option.getD_some,
      sliceBound_zero, hfull, Nat.sub_zero, List.drop_zero, List.take_length]
  refine ⟨mask, hmask, ?_, ?_⟩
  · rw [hcompute]
    exact sum_eq_count_one mask hmem
  · rw [hcompute, hcompute2]

/-- C5 witness: the default-range query at the overlapping-interval feature
file equals the count of ones of the cached mask for sequence A. -/
theorem c5_default_range_witness :
    ∃ mask, dictGet (getParser fsOverlap gffName).codingBaseMasks "A" = some mask ∧
      (getParser fsOverlap gffName).codingBases "A" 0 none = mask.count 1 ∧
      (getParser fsOverlap gffName).codingBases "A" 0 none
        = (getParser fsOverlap gffName).codingBases "A" 0
            (some ((dictGet (getParser fsOverlap gffName).lastCodingBase "A").getD 0)) :=
  c5_default_range fsOverlap gffName (getParser fsOverlap gffName) rfl "A"
    [("A_0", (2, 5)), ("A_1", (4, 8))] rfl

/-- C6: for every sequence identifier absent from the feature file (no
non-comment line has it as first tab field, hence no recorded gene
intervals), `codingBases(seqId, start, end)` returns 0 for all start and end
arguments; the query is total, so no error is raised. -/
theorem c6_unknown_seq_zero (fs : FileSys) (fn : String) (lines : List String)
    (p : ProdigalGeneFeatureParser) (hfs : fs fn = some lines)
    (hp : ProdigalGeneFeatureParser.init fs fn = .ok p) (seqId : String)
    (habs : ∀ line ∈ lines, firstCharIs line '#' = false → (splitTab line).headD "" ≠ seqId)
    (start : Int) (stop : Option Int) :
    p.codingBases seqId start stop = 0 := by
  obtain ⟨lines2, st, hfs2, hparse, hpg, _, _⟩ := init_inv fs fn p hp
  rw [hfs] at hfs2
  injection hfs2 with hl
  subst hl
  have hnone : dictGet st.genes seqId = none := by
    cases hres : dictGet st.genes seqId with
    | none => rfl
    | some g =>
      have hk : (dictGet st.genes seqId).isSome := by rw [hres]; rfl
      rcases parseGFF_keys_sub lines _ st hparse seqId hk with h0 | ⟨l, hl, hcm, hid⟩
      · simp [dictGet] at h0
      · exact absurd hid (habs l hl hcm)
  simp only [ProdigalGeneFeatureParser.codingBases, hpg, hnone]

/-- C6 witness: querying sequence B, absent from the overlapping-interval
feature file, returns 0. -/
theorem c6_unknown_seq_zero_witness :
    (getParser fsOverlap gffName).codingBases "B" 0 (some 5) = 0 :=
  c6_unknown_seq_zero fsOverlap gffName gffLinesOverlap (getParser fsOverlap gffName)
    rfl rfl "B" (by decide) 0 (some 5)

/-- C10: for every parser, every sequence identifier with recorded gene
intervals and all nonnegative integer bounds, `codingBases` is a total
function (never raises) whose slice bounds are clipped to the mask length, so
any range with start >= end, or with start at or beyond the mask length,
returns 0. -/
theorem c10_clipped_query (p : ProdigalGeneFeatureParser) (seqId : String)
    (g : List (String × Int × Int)) (hg : dictGet p.genes seqId = some g)
    (start stop : Int) (h0 : 0 ≤ start) (h1 : 0 ≤ stop)
    (h : stop ≤ start ∨ (((dictGet p.codingBaseMasks seqId).getD []).length : Int) ≤ start) :
    p.codingBases seqId start (some stop) = 0 := by
  simp only [ProdigalGeneFeatureParser.codingBases, hg]
  rcases h with hle | hlen
  · have hmono : sliceBound ((dictGet p.codingBaseMasks seqId).getD []).length stop
        ≤ sliceBound ((dictGet p.codingBaseMasks seqId).getD []).length start := by
      simp only [sliceBound]
      split_ifs <;> omega
    rw [Nat.sub_eq_zero_of_le hmono, List.take_zero]
    rfl
  · have hfull2 : sliceBound ((dictGet p.codingBaseMasks seqId).getD []).length start
        = ((dictGet p.codingBaseMasks seqId).getD []).length := by
      simp only [sliceBound]
      split_ifs <;> omega
    rw [hfull2, List.drop_length, List.take_nil]
    rfl

/-- C10 witness: a reversed range on the overlapping-interval feature file
returns 0. -/
theorem c10_clipped_query_witness :
    (getParser fsOverlap gffName).codingBases "A" 9 (some 3) = 0 :=
  c10_clipped_query (getParser fsOverlap gffName) "A"
    [("A_0", (2, 5)), ("A_1", (4, 8))] rfl 9 3 (by decide) (by decide)
    (Or.inl (by decide))

/-- C7: `genePositions` maps the gene identifier (first whitespace token after
the `>`) of every FASTA header line to the pair parsed from the 3rd and 5th
whitespace tokens, and a repeated gene identifier's later occurrence
overwrites the earlier one (last-write-wins): whatever headers precede the
line, and for any following lines whose gene identifier differs, the
resulting dictionary maps the line's gene identifier to that line's start and
end tokens. -/
theorem c7_gene_positions (pre post : List String) (line : String)
    (gp : List (String × Int × Int)) (geneId : String) (sv ev : Int)
    (hline : firstCharIs line '>' = true)
    (h0 : (pySplit (strTail line))[0]? = some geneId)
    (h2 : ((pySplit (strTail line))[2]?).bind pyInt = some sv)
    (h4 : ((pySplit (strTail line))[4]?).bind pyInt = some ev)
    (hpost : ∀ l ∈ post, firstCharIs l '>' = true → (pySplit (strTail l))[0]? ≠ some geneId)
    (h : genePositionsLines (pre ++ line :: post) = some gp) :
    dictGet gp geneId = some (sv, ev) := by
  unfold genePositionsLines at h
  rw [foldlM_option_append] at h
  cases hpre : pre.foldlM genePositionsLine [] with
  | none => rw [hpre] at h; exact absurd h (by simp)
  | some gp1 =>
    rw [hpre] at h
    have h' : (line :: post).foldlM genePositionsLine gp1 = some gp := h
    rw [List.foldlM_cons] at h'
    cases hstep : genePositionsLine gp1 line with
    | none => rw [hstep] at h'; exact absurd h' (by simp)
    | some gp2 =>
      rw [hstep] at h'
      have h'' : post.foldlM genePositionsLine gp2 = some gp := h'
      unfold genePositionsLine at hstep
      rw [if_pos hline, h0, h2, h4] at hstep
      injection hstep with hgp2
      rw [genePositions_preserve post gp2 gp geneId hpost h'', ← hgp2]
      exact dictGet_dictInsert_self ..

/-- C7 witness: a file with an earlier header for gene1 followed by the
spec's header `>gene1 # 10 # 50 # 1 # note` yields the mapping
gene1 -> [10, 50], the later occurrence having overwritten the earlier. -/
theorem c7_gene_positions_witness :
    dictGet [("gene1", ((10 : Int), (50 : Int)))] "gene1" = some (10, 50) :=
  c7_gene_positions [">gene1 # 1 # 2 # 1 # x\n"] [] ">gene1 # 10 # 50 # 1 # note\n"
    [("gene1", (10, 50))] "gene1" 10 50 rfl rfl rfl rfl (by simp) rfl
